import Mathlib

/-!
Shallow embedding of the wavetable build engine of
`wavetable_synthesis` (files `core/processing.py`,
`core/wavetable_generator.py`, `core/generator.py`, `core/config.py`,
`core/decorator_registry.py`) and proofs of the spec claims about it.

Sample buffers are `List α` over a linear ordered field `α`; the exact
arithmetic of `α` stands for the IEEE 754 doubles of the source, and the
final `.astype(np.float32)` conversion is modelled as the identity (the
embedding works in exact arithmetic throughout).  Claims that are about
finite values are stated at `α := ℚ` (executable) or `α := ℝ` (for the
sine scenario); the NaN/Infinity claim uses a dedicated extended value
type `FV` further below, since exact fields have no non-finite values.

Failure paths of the Python code (`ValueError` raised by numpy) are
modelled with `Except BuildError`.
-/

set_option autoImplicit false

namespace Wavetable

variable {α : Type} [LinearOrderedField α]

/-- Constant `EPSILON = 1e-12` from `core/constants.py`. -/
def EPSILON (α : Type) [LinearOrderedField α] : α := 1 / 10 ^ 12

/-- Embeds `np.mean(w)`: arithmetic mean of a buffer. -/
def mean (w : List α) : α := w.sum / (w.length : α)

/-- Embeds `np.max(np.abs(w))` for a buffer of samples.  All mapped values are
absolute values, hence nonnegative, so seeding the fold with `0` returns
the true maximum on every nonempty buffer (the callers guard emptiness). -/
def peakAbs (w : List α) : α := (w.map (fun x => |x|)).foldl max 0

/-- Embeds `processing.normalize_waveform`: scale so the peak equals
`target_peak` when the peak exceeds `EPSILON`; otherwise no-op.  The
`target_peak / peak` factor is computed once and each sample multiplied
by it, as in the source. -/
def normalize_waveform (w : List α) (target_peak : α) : List α :=
  if w.length = 0 then w
  else
    let peak := peakAbs w
    if peak > EPSILON α then w.map (fun x => x * (target_peak / peak)) else w

/-- Embeds `processing.remove_dc_offset`: subtract the mean (no-op on empty). -/
def remove_dc_offset (w : List α) : List α :=
  if w.length = 0 then w else w.map (fun x => x - mean w)

/-- Scan of `align_to_zero_crossing`'s `for` loop: first index `i ≥ 1`
(counting from the start of the original buffer) with
`w[i-1] <= 0 < w[i]`.  `i` is the index already consumed. -/
def findCrossingAux : List α → Nat → Option Nat
  | x :: y :: rest, i =>
      if x ≤ 0 ∧ 0 < y then some (i + 1) else findCrossingAux (y :: rest) (i + 1)
  | _, _ => none

/-- First upward zero crossing of a buffer, if any. -/
def findCrossing (w : List α) : Option Nat := findCrossingAux w 0

/-- Accumulator loop of `np.argmin`: keeps the first index attaining the
minimum (strict `<` to update). -/
def argminAbsAux : List α → Nat → Nat → α → Nat
  | [], _, best, _ => best
  | x :: rest, i, best, bestv =>
      if |x| < bestv then argminAbsAux rest (i + 1) i |x|
      else argminAbsAux rest (i + 1) best bestv

/-- Embeds `np.argmin(np.abs(w))`; it is `none` on the empty buffer, where numpy
raises `ValueError: attempt to get argmin of an empty sequence`. -/
def argminAbs? : List α → Option Nat
  | [] => none
  | x :: rest => some (argminAbsAux rest 1 0 |x|)

deriving instance DecidableEq for Except

/-- Build-time failures of the Python code, all `ValueError`s from numpy:
`broadcastError` is the shape mismatch of `table[frame_idx, :] = waveform`,
`argminEmptyError` is `np.argmin` on an empty array, and
`negativeDimError` is `np.zeros` with a negative dimension. -/
inductive BuildError where
  | broadcastError
  | argminEmptyError
  | negativeDimError
deriving DecidableEq, Repr

/-- Embeds `np.concatenate([w[i:], w[:i]])`: rotate the buffer left by `i`. -/
def rotateLeft (w : List α) (i : Nat) : List α := w.drop i ++ w.take i

/-- Embeds `processing.align_to_zero_crossing`: rotate to the first upward zero
crossing; fallback, rotate to the first index of minimum absolute value
(`np.argmin` fails on an empty buffer when there is no crossing). -/
def align_to_zero_crossing (w : List α) : Except BuildError (List α) :=
  match findCrossing w with
  | some i => .ok (rotateLeft w i)
  | none =>
      match argminAbs? w with
      | none => .error .argminEmptyError
      | some idx => if idx > 0 then .ok (rotateLeft w idx) else .ok w

/-- Embeds `processing.clamp_amplitude`: `np.clip(w, min_val, max_val)`. -/
def clamp_amplitude (w : List α) (min_val max_val : α) : List α :=
  w.map (fun x => max min_val (min x max_val))

/-- Embeds `table.size`: total number of samples of a (row-major) table. -/
def tableSize (t : List (List α)) : Nat := (t.map List.length).sum

/-- Embeds `np.mean(table)`: mean over all samples of the table. -/
def tableMean (t : List (List α)) : α := (t.map List.sum).sum / (tableSize t : α)

/-- Embeds `np.max(np.abs(table))`: peak absolute sample of the whole table. -/
def tablePeak (t : List (List α)) : α := (t.map peakAbs).foldl max 0

/-- Embeds `processing.remove_wavetable_dc_offset`: subtract the whole-table
mean from every sample (no-op on an empty table). -/
def remove_wavetable_dc_offset (t : List (List α)) : List (List α) :=
  if tableSize t = 0 then t
  else t.map (fun r => r.map (fun x => x - tableMean t))

/-- The four processing flags of `BaseGenerator.get_processing` /
the engine's default dict. -/
structure ProcessingConfig where
  wt_normalise : Bool
  wt_dc_remove : Bool
  wf_normalise : Bool
  wf_dc_remove : Bool
deriving DecidableEq, Repr

/-- The engine's built-in default: all four flags true. -/
def defaultProcessing : ProcessingConfig := ⟨true, true, true, true⟩

/-- A generator plugin: the `generate(theta, u)` callable together with
its optional `get_processing` attribute (`none` models a generator
without the attribute, in which case the engine keeps its all-true
defaults; `some pc` models `processing_config.update(...)`, each of the
four keys being independently overridden). -/
structure Generator (α : Type) where
  generate : List α → α → List α
  get_processing : Option ProcessingConfig

/-- Effective processing configuration seen by the engine. -/
def effectiveProcessing (g : Generator α) : ProcessingConfig :=
  g.get_processing.getD defaultProcessing

/-- Embeds `theta = TAU * np.arange(frame_size) / frame_size`.  `tau` is passed
explicitly (it is `2π` in the source; claims over `ℚ` quantify it). -/
def theta (tau : α) (frame_size : Nat) : List α :=
  (List.range frame_size).map (fun (k : Nat) => tau * (k : α) / (frame_size : α))

/-- Per-frame pipeline of `WavetableGenerator.generate` (lines 85-94):
optional DC removal, optional normalization, unconditional zero-crossing
alignment — all under `quality_processing` — then the unconditional
safety clamp to `[-1, 1]`. -/
def processRow (pc : ProcessingConfig) (quality : Bool) (row : List α) :
    Except BuildError (List α) :=
  if quality then
    let w1 := if pc.wf_dc_remove then remove_dc_offset row else row
    let w2 := if pc.wf_normalise then normalize_waveform w1 1 else w1
    match align_to_zero_crossing w2 with
    | .error e => .error e
    | .ok w3 => .ok (clamp_amplitude w3 (-1) 1)
  else .ok (clamp_amplitude row (-1) 1)

/-- Embeds `table[frame_idx, :] = waveform`: numpy stores a row of matching
length, broadcasts a length-1 row across the whole row, and raises
`ValueError` for any other length. -/
def storeRow (frame_size : Nat) (row : List α) : Except BuildError (List α) :=
  if row.length = frame_size then .ok row
  else
    match row with
    | [x] => .ok (List.replicate frame_size x)
    | _ => .error .broadcastError

/-- One iteration of the frame loop: morph scalar, generator invocation,
per-frame pipeline, row store. -/
def genFrame (tau : α) (frames : Int) (frame_size : Nat) (g : Generator α)
    (pc : ProcessingConfig) (quality : Bool) (frame_idx : Nat) :
    Except BuildError (List α) :=
  let u : α := if frames > 1 then (frame_idx : α) / ((frames : α) - 1) else 0
  let waveform := g.generate (theta tau frame_size) u
  match processRow pc quality waveform with
  | .error e => .error e
  | .ok processed => storeRow frame_size processed

/-- The frame loop over a list of frame indices, assembling rows in
ascending `frame_idx` order and aborting at the first failure. -/
def buildTable (tau : α) (frames : Int) (frame_size : Nat) (g : Generator α)
    (pc : ProcessingConfig) (quality : Bool) :
    List Nat → Except BuildError (List (List α))
  | [] => .ok []
  | i :: rest =>
      match genFrame tau frames frame_size g pc quality i with
      | .error e => .error e
      | .ok r =>
          match buildTable tau frames frame_size g pc quality rest with
          | .error e => .error e
          | .ok t => .ok (r :: t)

/-- Embeds `WavetableGenerator.generate` (the engine's build): effective config,
`np.zeros((frames, frame_size))` (failing on negative dimensions), the
frame loop, whole-table DC removal and global normalization, and the
row-major flatten.  The final `astype(np.float32)` is the identity in
this exact-arithmetic embedding. -/
def generate (tau : α) (frames frame_size : Int) (quality : Bool)
    (g : Generator α) : Except BuildError (List α) :=
  let pc := effectiveProcessing g
  if frames < 0 ∨ frame_size < 0 then .error .negativeDimError
  else
    let fsz := frame_size.toNat
    match buildTable tau frames fsz g pc quality (List.range frames.toNat) with
    | .error e => .error e
    | .ok table =>
        let table2 :=
          if quality ∧ pc.wt_dc_remove then remove_wavetable_dc_offset table
          else table
        let table3 :=
          if quality ∧ pc.wt_normalise ∧ 0 < tableSize table2 then
            let global_peak := tablePeak table2
            if global_peak > EPSILON α then
              table2.map (fun r => r.map (fun x => x / global_peak))
            else table2
          else table2
        .ok table3.flatten

/-- Embeds `core/generator.py: generate_wavetable`, which builds via
`WavetableGenerator.create_simple` (quality processing on). -/
def generate_wavetable (tau : α) (g : Generator α) (frames frame_size : Int) :
    Except BuildError (List α) :=
  generate tau frames frame_size true g

/-! ### Spec-side vocabulary for the zero-crossing claim -/

/-- The spec's notion of an upward zero crossing at index `i` of a
buffer: `i ≥ 1` and `x[i-1] ≤ 0 < x[i]`. -/
def IsUpCrossing (x : List α) (i : Nat) : Prop :=
  1 ≤ i ∧ i < x.length ∧ x.getD (i - 1) 0 ≤ 0 ∧ 0 < x.getD i 0

/-! ### Generator registry (`core/decorator_registry.py`)

`_DECORATOR_REGISTRY` is a `dict[str, Any]`; the decorator returned by
`register_generator(name)` executes `_DECORATOR_REGISTRY[name] = cls()`.
A dictionary is modelled as a lookup function `String → Option G`, and
the `dict.__setitem__` as a pointwise update — which silently replaces
any entry already stored under `name`. -/

/-- One registration: `_DECORATOR_REGISTRY[name] = g`. -/
def register_generator {G : Type} (name : String) (g : G)
    (reg : String → Option G) : String → Option G :=
  fun n => if n = name then some g else reg n

/-- The registry before any decorator has run. -/
def emptyRegistry {G : Type} : String → Option G := fun _ => none

/-- A sequence of registrations executed in order (import-time decorator
evaluation order). -/
def registerAll {G : Type} (ps : List (String × G)) (reg : String → Option G) :
    String → Option G :=
  ps.foldl (fun r p => register_generator p.1 p.2 r) reg

/-- Spec-side: the generator of the last registration under `n` in the
sequence `ps`, if any. -/
def lastAssign? {G : Type} (n : String) (ps : List (String × G)) : Option G :=
  (ps.reverse.find? (fun p => p.1 == n)).map Prod.snd

/-! ### `core/config.py: WavetableConfig.validate` -/

/-- The `ValueError`s of `WavetableConfig.validate`, one per check, in
source order. -/
inductive ConfigError where
  | framesNonPositive
  | frameSizeNonPositive
  | sampleRateNonPositive
  | unsupportedBitDepth
  | emptyWaveformName
deriving DecidableEq, Repr

/-- Constant `SUPPORTED_BIT_DEPTHS = [16, 24, 32]` from `core/constants.py`. -/
def SUPPORTED_BIT_DEPTHS : List Int := [16, 24, 32]

/-- Embeds `WavetableConfig.validate`: the checks of `config.py` in source
order, each raising `ValueError` (modelled as `Except.error`). -/
def WavetableConfig.validate (frames frame_size sample_rate bit_depth : Int)
    (waveform_name : String) : Except ConfigError Unit :=
  if frames ≤ 0 then .error .framesNonPositive
  else if frame_size ≤ 0 then .error .frameSizeNonPositive
  else if sample_rate ≤ 0 then .error .sampleRateNonPositive
  else if ¬ bit_depth ∈ SUPPORTED_BIT_DEPTHS then .error .unsupportedBitDepth
  else if waveform_name = "" then .error .emptyWaveformName
  else .ok ()

end Wavetable

/-! ### IEEE-style extended values, for the NaN/Infinity claim

The exact-field embedding above cannot express NaN or Infinity, so the
non-finite-output claim is settled over `FV`, rationals extended with
`nan`, `inf` and `ninf` and the IEEE 754 / numpy behaviour the source
relies on: arithmetic propagates NaN, every ordered comparison against
NaN is false, `np.maximum`/`np.minimum` (hence `np.clip`) propagate NaN,
and `np.argmin` treats the first NaN as the minimum.  The pipeline and
engine definitions are re-read from the same source lines as above. -/

namespace Wavetable

inductive FV where
  | fin : ℚ → FV
  | nan : FV
  | inf : FV
  | ninf : FV
deriving DecidableEq, Repr

namespace FV

/-- IEEE negation. -/
def neg : FV → FV
  | fin a => fin (-a)
  | nan => nan
  | inf => ninf
  | ninf => inf

/-- IEEE addition: NaN propagates, `inf + (-inf) = NaN`. -/
def add : FV → FV → FV
  | nan, _ => nan
  | _, nan => nan
  | inf, ninf => nan
  | ninf, inf => nan
  | inf, _ => inf
  | _, inf => inf
  | ninf, _ => ninf
  | _, ninf => ninf
  | fin a, fin b => fin (a + b)

/-- IEEE subtraction. -/
def sub (a b : FV) : FV := add a (neg b)

/-- IEEE multiplication: `0 * inf = NaN`. -/
def mul : FV → FV → FV
  | nan, _ => nan
  | _, nan => nan
  | fin a, fin b => fin (a * b)
  | fin a, inf => if 0 < a then inf else if a < 0 then ninf else nan
  | inf, fin a => if 0 < a then inf else if a < 0 then ninf else nan
  | fin a, ninf => if 0 < a then ninf else if a < 0 then inf else nan
  | ninf, fin a => if 0 < a then ninf else if a < 0 then inf else nan
  | inf, inf => inf
  | inf, ninf => ninf
  | ninf, inf => ninf
  | ninf, ninf => inf

/-- IEEE division (numpy semantics: finite/0 gives ±inf or NaN, not an
exception). -/
def div : FV → FV → FV
  | nan, _ => nan
  | _, nan => nan
  | fin a, fin b =>
      if b = 0 then (if a = 0 then nan else if 0 < a then inf else ninf)
      else fin (a / b)
  | fin _, inf => fin 0
  | fin _, ninf => fin 0
  | inf, fin b => if 0 ≤ b then inf else ninf
  | ninf, fin b => if 0 ≤ b then ninf else inf
  | _, _ => nan

/-- IEEE absolute value. -/
def fabs : FV → FV
  | fin a => fin |a|
  | nan => nan
  | inf => inf
  | ninf => inf

/-- IEEE `<`: false whenever either side is NaN. -/
def blt : FV → FV → Bool
  | nan, _ => false
  | _, nan => false
  | fin a, fin b => a < b
  | fin _, inf => true
  | inf, fin _ => false
  | ninf, fin _ => true
  | fin _, ninf => false
  | inf, inf => false
  | ninf, ninf => false
  | ninf, inf => true
  | inf, ninf => false

/-- IEEE `≤`: false whenever either side is NaN. -/
def ble : FV → FV → Bool
  | nan, _ => false
  | _, nan => false
  | fin a, fin b => a ≤ b
  | fin _, inf => true
  | inf, fin _ => false
  | ninf, fin _ => true
  | fin _, ninf => false
  | inf, inf => true
  | ninf, ninf => true
  | ninf, inf => true
  | inf, ninf => false

/-- Embeds `np.maximum`: propagates NaN. -/
def fmax : FV → FV → FV
  | nan, _ => nan
  | _, nan => nan
  | a, b => if blt a b then b else a

/-- Embeds `np.minimum`: propagates NaN. -/
def fmin : FV → FV → FV
  | nan, _ => nan
  | _, nan => nan
  | a, b => if blt b a then b else a

def isNan : FV → Bool
  | nan => true
  | _ => false

end FV

/-! The processing pipeline and engine re-embedded over `FV` (same
source lines as the exact-field embedding above; suffix `F`). -/

def sumF (w : List FV) : FV := w.foldr FV.add (FV.fin 0)

/-- Embeds `np.mean` over extended values. -/
def meanF (w : List FV) : FV := FV.div (sumF w) (FV.fin (w.length : ℚ))

/-- Embeds `np.max(np.abs(w))` over extended values (`np.max` propagates NaN). -/
def peakAbsF (w : List FV) : FV := (w.map FV.fabs).foldl FV.fmax (FV.fin 0)

def EPSILON_F : FV := FV.fin (1 / 10 ^ 12)

/-- Embeds `normalize_waveform` over extended values. -/
def normalize_waveformF (w : List FV) (target_peak : FV) : List FV :=
  if w.length = 0 then w
  else
    let peak := peakAbsF w
    if FV.blt EPSILON_F peak then
      w.map (fun x => FV.mul x (FV.div target_peak peak))
    else w

/-- Embeds `remove_dc_offset` over extended values. -/
def remove_dc_offsetF (w : List FV) : List FV :=
  if w.length = 0 then w else w.map (fun x => FV.sub x (meanF w))

def findCrossingAuxF : List FV → Nat → Option Nat
  | x :: y :: rest, i =>
      if FV.ble x (FV.fin 0) ∧ FV.blt (FV.fin 0) y then some (i + 1)
      else findCrossingAuxF (y :: rest) (i + 1)
  | _, _ => none

def findCrossingF (w : List FV) : Option Nat := findCrossingAuxF w 0

/-- Embeds the `np.argmin` loop over extended values: the first NaN wins (numpy
propagates NaN through `argmin`), otherwise first index of the strict
minimum. -/
def argminAbsAuxF : List FV → Nat → Nat → FV → Nat
  | [], _, best, _ => best
  | x :: rest, i, best, bestv =>
      if FV.blt (FV.fabs x) bestv ∨ ((FV.fabs x).isNan ∧ ¬ bestv.isNan) then
        argminAbsAuxF rest (i + 1) i (FV.fabs x)
      else argminAbsAuxF rest (i + 1) best bestv

def argminAbsF? : List FV → Option Nat
  | [] => none
  | x :: rest => some (argminAbsAuxF rest 1 0 (FV.fabs x))

def rotateLeftF (w : List FV) (i : Nat) : List FV := w.drop i ++ w.take i

def align_to_zero_crossingF (w : List FV) : Except BuildError (List FV) :=
  match findCrossingF w with
  | some i => .ok (rotateLeftF w i)
  | none =>
      match argminAbsF? w with
      | none => .error .argminEmptyError
      | some idx => if idx > 0 then .ok (rotateLeftF w idx) else .ok w

/-- Embeds `np.clip` over extended values (NaN passes through, infinities are
limited to the bounds). -/
def clamp_amplitudeF (w : List FV) (min_val max_val : FV) : List FV :=
  w.map (fun x => FV.fmin (FV.fmax x min_val) max_val)

def tableSizeF (t : List (List FV)) : Nat := (t.map List.length).sum

def tableMeanF (t : List (List FV)) : FV :=
  FV.div (sumF (t.map sumF)) (FV.fin (tableSizeF t : ℚ))

def tablePeakF (t : List (List FV)) : FV :=
  (t.map peakAbsF).foldl FV.fmax (FV.fin 0)

def remove_wavetable_dc_offsetF (t : List (List FV)) : List (List FV) :=
  if tableSizeF t = 0 then t
  else t.map (fun r => r.map (fun x => FV.sub x (tableMeanF t)))

def thetaF (tau : FV) (frame_size : Nat) : List FV :=
  (List.range frame_size).map
    (fun (k : Nat) =>
      FV.div (FV.mul tau (FV.fin (k : ℚ))) (FV.fin (frame_size : ℚ)))

def processRowF (pc : ProcessingConfig) (quality : Bool) (row : List FV) :
    Except BuildError (List FV) :=
  if quality then
    let w1 := if pc.wf_dc_remove then remove_dc_offsetF row else row
    let w2 := if pc.wf_normalise then normalize_waveformF w1 (FV.fin 1) else w1
    match align_to_zero_crossingF w2 with
    | .error e => .error e
    | .ok w3 => .ok (clamp_amplitudeF w3 (FV.fin (-1)) (FV.fin 1))
  else .ok (clamp_amplitudeF row (FV.fin (-1)) (FV.fin 1))

def storeRowF (frame_size : Nat) (row : List FV) : Except BuildError (List FV) :=
  if row.length = frame_size then .ok row
  else
    match row with
    | [x] => .ok (List.replicate frame_size x)
    | _ => .error .broadcastError

def genFrameF (tau : FV) (frames : Int) (frame_size : Nat) (g : Generator FV)
    (pc : ProcessingConfig) (quality : Bool) (frame_idx : Nat) :
    Except BuildError (List FV) :=
  let u : FV :=
    if frames > 1 then
      FV.div (FV.fin (frame_idx : ℚ)) (FV.sub (FV.fin (frames : ℚ)) (FV.fin 1))
    else FV.fin 0
  let waveform := g.generate (thetaF tau frame_size) u
  match processRowF pc quality waveform with
  | .error e => .error e
  | .ok processed => storeRowF frame_size processed

def buildTableF (tau : FV) (frames : Int) (frame_size : Nat) (g : Generator FV)
    (pc : ProcessingConfig) (quality : Bool) :
    List Nat → Except BuildError (List (List FV))
  | [] => .ok []
  | i :: rest =>
      match genFrameF tau frames frame_size g pc quality i with
      | .error e => .error e
      | .ok r =>
          match buildTableF tau frames frame_size g pc quality rest with
          | .error e => .error e
          | .ok t => .ok (r :: t)

/-- Embeds `WavetableGenerator.generate` over extended values. -/
def generateF (tau : FV) (frames frame_size : Int) (quality : Bool)
    (g : Generator FV) : Except BuildError (List FV) :=
  let pc := effectiveProcessing g
  if frames < 0 ∨ frame_size < 0 then .error .negativeDimError
  else
    let fsz := frame_size.toNat
    match buildTableF tau frames fsz g pc quality (List.range frames.toNat) with
    | .error e => .error e
    | .ok table =>
        let table2 :=
          if quality ∧ pc.wt_dc_remove then remove_wavetable_dc_offsetF table
          else table
        let table3 :=
          if quality ∧ pc.wt_normalise ∧ 0 < tableSizeF table2 then
            let global_peak := tablePeakF table2
            if FV.blt EPSILON_F global_peak then
              table2.map (fun r => r.map (fun x => FV.div x global_peak))
            else table2
          else table2
        .ok table3.flatten

/-! ## Helper lemmas -/

variable {α : Type} [LinearOrderedField α]

theorem theta_length (tau : α) (n : Nat) : (theta tau n).length = n := by
  unfold theta
  rw [List.length_map, List.length_range]

theorem remove_dc_offset_length (w : List α) :
    (remove_dc_offset w).length = w.length := by
  unfold remove_dc_offset; split <;> simp

theorem normalize_waveform_length (w : List α) (t : α) :
    (normalize_waveform w t).length = w.length := by
  simp only [normalize_waveform]
  split_ifs <;> simp

theorem clamp_amplitude_length (w : List α) (lo hi : α) :
    (clamp_amplitude w lo hi).length = w.length := by
  simp [clamp_amplitude]

theorem rotateLeft_perm (w : List α) (i : Nat) : (rotateLeft w i).Perm w := by
  have h := @List.perm_append_comm _ (w.drop i) (w.take i)
  rw [List.take_append_drop] at h
  exact h

theorem rotateLeft_length (w : List α) (i : Nat) :
    (rotateLeft w i).length = w.length :=
  (rotateLeft_perm w i).length_eq

theorem align_ok_of_ne_nil (w : List α) (hw : w ≠ []) :
    ∃ r, align_to_zero_crossing w = .ok r ∧ r.Perm w := by
  unfold align_to_zero_crossing
  cases hc : findCrossing w with
  | some i => exact ⟨rotateLeft w i, rfl, rotateLeft_perm w i⟩
  | none =>
      cases ha : argminAbs? w with
      | none =>
          cases w with
          | nil => exact absurd rfl hw
          | cons x rest => simp [argminAbs?] at ha
      | some idx =>
          by_cases h0 : idx > 0
          · exact ⟨rotateLeft w idx, by simp [h0], rotateLeft_perm w idx⟩
          · exact ⟨w, by simp [h0], List.Perm.refl w⟩

theorem processRow_ok (pc : ProcessingConfig) (row : List α) (hrow : row ≠ []) :
    ∃ r, processRow pc true row = .ok r ∧ r.length = row.length := by
  unfold processRow
  rw [if_pos rfl]
  dsimp only
  set w1 := if pc.wf_dc_remove = true then remove_dc_offset row else row with hw1
  set w2 := if pc.wf_normalise = true then normalize_waveform w1 1 else w1 with hw2
  have hl1 : w1.length = row.length := by
    rw [hw1]; split <;> simp [remove_dc_offset_length]
  have hl2 : w2.length = row.length := by
    rw [hw2]; split <;> simp [normalize_waveform_length, hl1]
  have hne2 : w2 ≠ [] := by
    intro h
    rw [h] at hl2
    exact hrow (List.eq_nil_of_length_eq_zero hl2.symm)
  obtain ⟨w3, h3, hperm⟩ := align_ok_of_ne_nil w2 hne2
  rw [h3]
  exact ⟨_, rfl, by rw [clamp_amplitude_length, hperm.length_eq, hl2]⟩

theorem storeRow_ok_of_length (fsz : Nat) (row : List α)
    (h : row.length = fsz) : storeRow fsz row = .ok row := by
  unfold storeRow; rw [if_pos h]

theorem genFrame_ok (tau : α) (frames : Int) (fsz : Nat) (g : Generator α)
    (pc : ProcessingConfig) (i : Nat) (hfsz : 0 < fsz)
    (hg : ∀ th u, (g.generate th u).length = th.length) :
    ∃ r, genFrame tau frames fsz g pc true i = .ok r ∧ r.length = fsz := by
  unfold genFrame
  dsimp only
  set u : α := if frames > 1 then (i : α) / ((frames : α) - 1) else 0 with hu
  have hlen : (g.generate (theta tau fsz) u).length = fsz := by
    rw [hg, theta_length]
  have hne : g.generate (theta tau fsz) u ≠ [] := by
    intro h; rw [h] at hlen; simp at hlen; omega
  obtain ⟨r, hr, hrl⟩ := processRow_ok pc _ hne
  rw [hr]
  have : r.length = fsz := by rw [hrl, hlen]
  exact ⟨r, storeRow_ok_of_length fsz r this, this⟩

theorem buildTable_ok (tau : α) (frames : Int) (fsz : Nat) (g : Generator α)
    (pc : ProcessingConfig) (hfsz : 0 < fsz)
    (hg : ∀ th u, (g.generate th u).length = th.length) :
    ∀ idxs : List Nat, ∃ t, buildTable tau frames fsz g pc true idxs = .ok t ∧
      t.length = idxs.length ∧ ∀ r ∈ t, r.length = fsz := by
  intro idxs
  induction idxs with
  | nil => exact ⟨[], rfl, rfl, by simp⟩
  | cons i rest ih =>
      obtain ⟨r, hr, hrl⟩ := genFrame_ok tau frames fsz g pc i hfsz hg
      obtain ⟨t, ht, htl, htr⟩ := ih
      refine ⟨r :: t, ?_, by simp [htl], ?_⟩
      · unfold buildTable; rw [hr, ht]
      · intro s hs
        rcases List.mem_cons.mp hs with rfl | hs2
        · exact hrl
        · exact htr _ hs2

theorem tableSize_of_rows (t : List (List α)) (fsz : Nat)
    (h : ∀ r ∈ t, r.length = fsz) : tableSize t = t.length * fsz := by
  induction t with
  | nil => simp [tableSize]
  | cons r rest ih =>
      have hr : r.length = fsz := h r (by simp)
      have hrest := ih (fun s hs => h s (by simp [hs]))
      simp only [tableSize, List.map_cons, List.sum_cons] at hrest ⊢
      rw [hr, hrest, List.length_cons]
      ring

theorem remove_wavetable_dc_offset_rows (t : List (List α)) (fsz : Nat)
    (h : ∀ r ∈ t, r.length = fsz) :
    (remove_wavetable_dc_offset t).length = t.length ∧
    ∀ r ∈ remove_wavetable_dc_offset t, r.length = fsz := by
  unfold remove_wavetable_dc_offset
  split
  · exact ⟨rfl, h⟩
  · refine ⟨by simp, ?_⟩
    intro r hr
    simp only [List.mem_map] at hr
    obtain ⟨s, hs, rfl⟩ := hr
    simp [h s hs]

theorem not_isUpCrossing_nil (k : Nat) : ¬ IsUpCrossing ([] : List α) k := by
  simp [IsUpCrossing]

theorem not_isUpCrossing_zero (w : List α) : ¬ IsUpCrossing w 0 := by
  simp [IsUpCrossing]

theorem isUpCrossing_cons_succ (x : α) (w : List α) (k : Nat) (hk : 1 ≤ k) :
    IsUpCrossing (x :: w) (k + 1) ↔ IsUpCrossing w k := by
  unfold IsUpCrossing
  obtain ⟨k', rfl⟩ : ∃ k', k = k' + 1 := ⟨k - 1, by omega⟩
  rw [show k' + 1 + 1 - 1 = k' + 1 from rfl, show k' + 1 - 1 = k' from rfl]
  simp only [List.getD_cons_succ, List.length_cons]
  constructor
  · rintro ⟨-, h2, h3, h4⟩; exact ⟨hk, by omega, h3, h4⟩
  · rintro ⟨-, h2, h3, h4⟩; exact ⟨by omega, by omega, h3, h4⟩

theorem isUpCrossing_one (x y : α) (rest : List α) :
    IsUpCrossing (x :: y :: rest) 1 ↔ x ≤ 0 ∧ 0 < y := by
  unfold IsUpCrossing
  simp only [List.getD_cons_succ, List.getD_cons_zero, List.length_cons]
  constructor
  · rintro ⟨-, -, h3, h4⟩; exact ⟨h3, h4⟩
  · rintro ⟨h3, h4⟩; exact ⟨le_refl 1, by omega, h3, h4⟩

theorem findCrossingAux_none : ∀ (w : List α) (i : Nat),
    findCrossingAux w i = none → ∀ k, ¬ IsUpCrossing w k
  | [], _, _, k => not_isUpCrossing_nil k
  | [x], _, _, k => by
      rintro ⟨h1, h2, -, -⟩
      simp only [List.length_cons, List.length_nil] at h2
      omega
  | x :: y :: rest, i, h, k => by
      rw [findCrossingAux] at h
      by_cases hc : x ≤ 0 ∧ 0 < y
      · rw [if_pos hc] at h; cases h
      · rw [if_neg hc] at h
        intro hk
        have hk1 : 1 ≤ k := hk.1
        rcases Nat.lt_or_ge k 2 with h2 | h2
        · have : k = 1 := by omega
          subst this
          exact hc ((isUpCrossing_one x y rest).mp hk)
        · obtain ⟨k', rfl⟩ : ∃ k', k = k' + 1 := ⟨k - 1, by omega⟩
          have hk' : 1 ≤ k' := by omega
          have := (isUpCrossing_cons_succ x (y :: rest) k' hk').mp hk
          exact findCrossingAux_none (y :: rest) (i + 1) h k' this

theorem findCrossingAux_some : ∀ (w : List α) (i j : Nat),
    findCrossingAux w i = some j →
    i < j ∧ IsUpCrossing w (j - i) ∧ ∀ m, IsUpCrossing w m → j - i ≤ m
  | [], _, _, h => by cases h
  | [x], _, _, h => by cases h
  | x :: y :: rest, i, j, h => by
      rw [findCrossingAux] at h
      by_cases hc : x ≤ 0 ∧ 0 < y
      · rw [if_pos hc] at h
        cases h
        refine ⟨by omega, ?_, ?_⟩
        · rw [show i + 1 - i = 1 by omega]
          exact (isUpCrossing_one x y rest).mpr hc
        · intro m hm
          have := hm.1
          omega
      · rw [if_neg hc] at h
        obtain ⟨hij, hcross, hmin⟩ := findCrossingAux_some (y :: rest) (i + 1) j h
        refine ⟨by omega, ?_, ?_⟩
        · have hge : 1 ≤ j - (i + 1) := by omega
          have := (isUpCrossing_cons_succ x (y :: rest) (j - (i + 1)) hge).mpr hcross
          rw [show j - (i + 1) + 1 = j - i by omega] at this
          exact this
        · intro m hm
          have hm1 : 1 ≤ m := hm.1
          rcases Nat.lt_or_ge m 2 with h2 | h2
          · have : m = 1 := by omega
            subst this
            exact absurd ((isUpCrossing_one x y rest).mp hm) hc
          · obtain ⟨m', rfl⟩ : ∃ m', m = m' + 1 := ⟨m - 1, by omega⟩
            have hm' : 1 ≤ m' := by omega
            have := hmin m' ((isUpCrossing_cons_succ x (y :: rest) m' hm').mp hm)
            omega

theorem argminAbsAux_spec : ∀ (l : List α) (i best : Nat) (bestv : α),
    (argminAbsAux l i best bestv = best ∧ ∀ x ∈ l, bestv ≤ |x|) ∨
    (∃ j, j < l.length ∧ argminAbsAux l i best bestv = i + j ∧
      |l.getD j 0| ≤ bestv ∧ ∀ x ∈ l, |l.getD j 0| ≤ |x|)
  | [], i, best, bestv => by
      left
      exact ⟨rfl, by simp⟩
  | x :: rest, i, best, bestv => by
      rw [argminAbsAux]
      by_cases hx : |x| < bestv
      · rw [if_pos hx]
        rcases argminAbsAux_spec rest (i + 1) i |x| with ⟨heq, hall⟩ | ⟨j, hj, heq, hle, hall⟩
        · right
          refine ⟨0, by simp, by rw [heq]; omega, by simp [hx.le], ?_⟩
          intro z hz
          rcases List.mem_cons.mp hz with rfl | hz2
          · simp
          · simpa using hall z hz2
        · right
          refine ⟨j + 1, by simp; omega, by rw [heq]; omega, ?_, ?_⟩
          · simpa using le_trans hle hx.le
          · intro z hz
            rcases List.mem_cons.mp hz with rfl | hz2
            · simpa using hle
            · simpa using hall z hz2
      · rw [if_neg hx]
        push_neg at hx
        rcases argminAbsAux_spec rest (i + 1) best bestv with ⟨heq, hall⟩ | ⟨j, hj, heq, hle, hall⟩
        · left
          refine ⟨heq, ?_⟩
          intro z hz
          rcases List.mem_cons.mp hz with rfl | hz2
          · exact hx
          · exact hall z hz2
        · right
          refine ⟨j + 1, by simp; omega, by rw [heq]; omega, ?_, ?_⟩
          · simpa using hle
          · intro z hz
            rcases List.mem_cons.mp hz with rfl | hz2
            · simpa using le_trans hle hx
            · simpa using hall z hz2

theorem argminAbs?_spec (w : List α) (hw : w ≠ []) :
    ∃ k, argminAbs? w = some k ∧ k < w.length ∧
      ∀ x ∈ w, |w.getD k 0| ≤ |x| := by
  match w, hw with
  | x :: rest, _ =>
      rw [argminAbs?]
      rcases argminAbsAux_spec rest 1 0 |x| with ⟨heq, hall⟩ | ⟨j, hj, heq, hle, hall⟩
      · refine ⟨0, by rw [heq], by simp, ?_⟩
        intro z hz
        rcases List.mem_cons.mp hz with rfl | hz2
        · simp
        · simpa using hall z hz2
      · refine ⟨1 + j, by rw [heq], by simp; omega, ?_⟩
        rw [show 1 + j = j + 1 by omega]
        simp only [List.getD_cons_succ]
        intro z hz
        rcases List.mem_cons.mp hz with rfl | hz2
        · exact hle
        · exact hall z hz2

theorem le_foldl_max_init : ∀ (l : List α) (c : α), c ≤ l.foldl max c
  | [], c => le_refl c
  | x :: l, c =>
      le_trans (le_max_left c x) (le_foldl_max_init l (max c x))

theorem le_foldl_max_of_mem : ∀ (l : List α) (c x : α), x ∈ l → x ≤ l.foldl max c
  | [], _, _, h => absurd h (List.not_mem_nil _)
  | y :: l, c, x, h => by
      rcases List.mem_cons.mp h with rfl | h2
      · exact le_trans (le_max_right c x) (le_foldl_max_init l (max c x))
      · exact le_foldl_max_of_mem l (max c y) x h2

theorem peakAbs_nonneg (w : List α) : 0 ≤ peakAbs w :=
  le_foldl_max_init _ 0

theorem abs_le_peakAbs (w : List α) (x : α) (h : x ∈ w) : |x| ≤ peakAbs w :=
  le_foldl_max_of_mem _ 0 |x| (List.mem_map_of_mem _ h)

theorem peakAbs_le_tablePeak (t : List (List α)) (r : List α) (h : r ∈ t) :
    peakAbs r ≤ tablePeak t :=
  le_foldl_max_of_mem _ 0 (peakAbs r) (List.mem_map_of_mem _ h)

theorem foldl_max_map_mulc (c : α) (hc : 0 ≤ c) :
    ∀ (l : List α) (b : α),
      (l.map (fun x => x * c)).foldl max (b * c) = (l.foldl max b) * c
  | [], b => rfl
  | x :: l, b => by
      simp only [List.map_cons, List.foldl_cons]
      rw [← max_mul_of_nonneg b x hc]
      exact foldl_max_map_mulc c hc l (max b x)

theorem peakAbs_map_mulc (w : List α) (c : α) (hc : 0 ≤ c) :
    peakAbs (w.map (fun x => x * c)) = peakAbs w * c := by
  unfold peakAbs
  rw [List.map_map]
  have : ((fun x => |x|) ∘ fun x => x * c) = (fun x => |x| * c) := by
    funext x
    simp [abs_mul, abs_of_nonneg hc]
  rw [this, show (fun x : α => |x| * c) = ((fun x => x * c) ∘ fun x => |x|) from rfl,
    ← List.map_map]
  calc (List.map (fun x => x * c) (List.map (fun x => |x|) w)).foldl max 0
      = (List.map (fun x => x * c) (List.map (fun x => |x|) w)).foldl max (0 * c) := by
        rw [zero_mul]
    _ = ((List.map (fun x => |x|) w).foldl max 0) * c :=
        foldl_max_map_mulc c hc _ 0

theorem flatten_length_of_rows (t : List (List α)) (fsz : Nat)
    (h : ∀ r ∈ t, r.length = fsz) : t.flatten.length = t.length * fsz := by
  rw [List.length_flatten]
  have := tableSize_of_rows t fsz h
  simpa [tableSize] using this


theorem map_map_rows (t2 : List (List α)) (f : α → α) (fsz : Nat)
    (h : ∀ r ∈ t2, r.length = fsz) :
    (t2.map (fun r => r.map f)).length = t2.length ∧
    ∀ r ∈ t2.map (fun r => r.map f), r.length = fsz := by
  refine ⟨by simp, ?_⟩
  intro r hr
  simp only [List.mem_map] at hr
  obtain ⟨s, hs, rfl⟩ := hr
  simp [h s hs]

/-! ## Claim theorems -/

/-- C2: for every `frames > 0` and `frame_size > 0`, and every generator
whose `generate(phase, u)` returns a sequence of the same length as
`phase`, the flattened output of the engine's build
(`WavetableGenerator.generate` / `generate_wavetable`) has exactly
`frames × frame_size` elements. -/
theorem c2_shape_law (tau : ℚ) (frames frame_size : Int) (g : Generator ℚ)
    (hf : 0 < frames) (hs : 0 < frame_size)
    (hg : ∀ th u, (g.generate th u).length = th.length) :
    ∃ out, generate_wavetable tau g frames frame_size = .ok out ∧
      (out.length : Int) = frames * frame_size := by
  unfold generate_wavetable generate
  rw [if_neg (by omega)]
  dsimp only
  obtain ⟨t, ht, htl, htr⟩ := buildTable_ok tau frames frame_size.toNat g
    (effectiveProcessing g) (by omega) hg (List.range frames.toNat)
  rw [ht]
  refine ⟨_, rfl, ?_⟩
  have hA := remove_wavetable_dc_offset_rows t frame_size.toNat htr
  have htlen : t.length = frames.toNat := by simp [htl]
  have hcast : ((frames.toNat * frame_size.toNat : Nat) : Int) =
      frames * frame_size := by
    push_cast
    rw [Int.toNat_of_nonneg (le_of_lt hf), Int.toNat_of_nonneg (le_of_lt hs)]
  split_ifs with h1 h2 h3 h4 h5
  all_goals first
  | (rw [flatten_length_of_rows _ frame_size.toNat
        (map_map_rows _ _ frame_size.toNat hA.2).2]
     rw [(map_map_rows (remove_wavetable_dc_offset t) _ frame_size.toNat hA.2).1,
       hA.1, htlen]
     exact hcast)
  | (rw [flatten_length_of_rows _ frame_size.toNat hA.2, hA.1, htlen]
     exact hcast)
  | (rw [flatten_length_of_rows _ frame_size.toNat
        (map_map_rows _ _ frame_size.toNat htr).2]
     rw [(map_map_rows t _ frame_size.toNat htr).1, htlen]
     exact hcast)
  | (rw [flatten_length_of_rows _ frame_size.toNat htr, htlen]
     exact hcast)

/-- Witness for C2 at `tau = 0`, `frames = 2`, `frame_size = 3`, identity
generator. -/
theorem c2_shape_law_witness :
    ∃ out, generate_wavetable (0:ℚ) ⟨fun th _ => th, none⟩ 2 3 = .ok out ∧
      (out.length : Int) = 2 * 3 :=
  c2_shape_law 0 2 3 ⟨fun th _ => th, none⟩ (by norm_num) (by norm_num)
    (fun th u => rfl)

/-- C3: for every non-empty sample sequence `x`, `align_to_zero_crossing x`
is a rotation of `x` — it preserves the length and the multiset of values —
and: if some index `i ≥ 1` satisfies `x[i-1] ≤ 0 < x[i]`, the result is `x`
rotated left by the smallest such `i`; otherwise it is `x` rotated left so
an element of minimum absolute value comes first; and if the chosen index
is `0` the result equals `x`. -/
theorem c3_alignment_rotation (x : List ℚ) (hx : x ≠ []) :
    ∃ r, align_to_zero_crossing x = .ok r ∧ r.length = x.length ∧ r.Perm x ∧
      ((∃ i, IsUpCrossing x i) →
        ∃ i, IsUpCrossing x i ∧ (∀ j, IsUpCrossing x j → i ≤ j) ∧
          r = rotateLeft x i) ∧
      ((¬ ∃ i, IsUpCrossing x i) →
        ∃ k, k < x.length ∧ (∀ y ∈ x, |x.getD k 0| ≤ |y|) ∧
          r = rotateLeft x k ∧ (k = 0 → r = x)) := by
  unfold align_to_zero_crossing
  cases hc : findCrossing x with
  | some i =>
      obtain ⟨hipos, hcross, hmin⟩ := findCrossingAux_some x 0 i hc
      simp only [Nat.sub_zero] at hcross hmin
      refine ⟨rotateLeft x i, rfl, rotateLeft_length x i, rotateLeft_perm x i,
        ?_, ?_⟩
      · intro _
        exact ⟨i, hcross, hmin, rfl⟩
      · intro hno
        exact absurd ⟨i, hcross⟩ hno
  | none =>
      have hnone : ∀ k, ¬ IsUpCrossing x k := findCrossingAux_none x 0 hc
      obtain ⟨k, ha, hk, hminabs⟩ := argminAbs?_spec x hx
      rw [ha]
      show ∃ r,
        (if k > 0 then Except.ok (rotateLeft x k) else Except.ok x) = .ok r ∧ _
      by_cases h0 : k > 0
      · rw [if_pos h0]
        refine ⟨rotateLeft x k, rfl, rotateLeft_length x k, rotateLeft_perm x k,
          ?_, ?_⟩
        · rintro ⟨i, hi⟩
          exact absurd hi (hnone i)
        · intro _
          exact ⟨k, hk, hminabs, rfl, fun heq => absurd heq (by omega)⟩
      · rw [if_neg h0]
        have hk0 : k = 0 := by omega
        refine ⟨x, rfl, rfl, List.Perm.refl x, ?_, ?_⟩
        · rintro ⟨i, hi⟩
          exact absurd hi (hnone i)
        · intro _
          exact ⟨k, hk, hminabs, by simp [hk0, rotateLeft], fun _ => rfl⟩

/-- Witness for C3 at `x = [3, -2, 5]` (crossing at index 2). -/
theorem c3_alignment_rotation_witness :
    ([3, -2, 5] : List ℚ) ≠ [] ∧
    (∃ r, align_to_zero_crossing ([3, -2, 5] : List ℚ) = .ok r ∧
      r.length = ([3, -2, 5] : List ℚ).length ∧ r.Perm [3, -2, 5] ∧
      ((∃ i, IsUpCrossing ([3, -2, 5] : List ℚ) i) →
        ∃ i, IsUpCrossing ([3, -2, 5] : List ℚ) i ∧
          (∀ j, IsUpCrossing ([3, -2, 5] : List ℚ) j → i ≤ j) ∧
          r = rotateLeft [3, -2, 5] i) ∧
      ((¬ ∃ i, IsUpCrossing ([3, -2, 5] : List ℚ) i) →
        ∃ k, k < ([3, -2, 5] : List ℚ).length ∧
          (∀ y ∈ ([3, -2, 5] : List ℚ), |([3, -2, 5] : List ℚ).getD k 0| ≤ |y|) ∧
          r = rotateLeft [3, -2, 5] k ∧ (k = 0 → r = [3, -2, 5]))) :=
  ⟨by simp, c3_alignment_rotation [3, -2, 5] (by simp)⟩

/-- C8: `normalize_waveform` is idempotent (exactly, in the exact
arithmetic of the embedding — hence in particular within the `1e-6`
tolerance), including the guarded near-silent case. -/
theorem c8_normalize_idempotent (x : List ℚ) :
    normalize_waveform (normalize_waveform x 1) 1 = normalize_waveform x 1 := by
  by_cases hlen : x.length = 0
  · have hx : normalize_waveform x 1 = x := by
      unfold normalize_waveform
      rw [if_pos hlen]
    rw [hx]
    exact hx
  · by_cases hpk : peakAbs x > EPSILON ℚ
    · have hx : normalize_waveform x 1 =
          x.map (fun v => v * (1 / peakAbs x)) := by
        unfold normalize_waveform
        rw [if_neg hlen]
        dsimp only
        rw [if_pos hpk]
      have hppos : 0 < peakAbs x := lt_trans (by norm_num [EPSILON]) hpk
      have hpeak2 : peakAbs (x.map (fun v => v * (1 / peakAbs x))) = 1 := by
        rw [peakAbs_map_mulc x _ (by positivity)]
        field_simp
      rw [hx]
      unfold normalize_waveform
      rw [if_neg (by simpa using hlen)]
      dsimp only
      rw [hpeak2, if_pos (by norm_num [EPSILON])]
      simp
    · have hx : normalize_waveform x 1 = x := by
        unfold normalize_waveform
        rw [if_neg hlen]
        dsimp only
        rw [if_neg hpk]
      rw [hx]
      exact hx

/-- C9: the build is deterministic — two builds with extensionally equal
pure generators and identical `(frames, frame_size)` produce identical
output buffers (the embedding of a pure, stateless computation). -/
theorem c9_build_deterministic (tau : ℚ) (frames frame_size : Int)
    (quality : Bool) (g₁ g₂ : Generator ℚ)
    (hgen : ∀ th u, g₁.generate th u = g₂.generate th u)
    (hpc : g₁.get_processing = g₂.get_processing) :
    generate tau frames frame_size quality g₁ =
    generate tau frames frame_size quality g₂ := by
  have h1 : g₁.generate = g₂.generate := funext (fun th => funext (hgen th))
  have h2 : g₁ = g₂ := by
    cases g₁
    cases g₂
    simp_all
  rw [h2]

/-- Witness for C9 with two syntactically different but extensionally
equal generators. -/
theorem c9_build_deterministic_witness :
    generate (0:ℚ) 1 2 true ⟨fun th _ => th, none⟩ =
    generate (0:ℚ) 1 2 true ⟨fun th _ => th.map id, none⟩ :=
  c9_build_deterministic 0 1 2 true ⟨fun th _ => th, none⟩
    ⟨fun th _ => th.map id, none⟩ (fun th u => by simp) rfl

theorem storeRow_error (fsz : Nat) (r : List α)
    (h1 : r.length ≠ fsz) (h2 : r.length ≠ 1) :
    storeRow fsz r = .error .broadcastError := by
  unfold storeRow
  rw [if_neg h1]
  rcases r with _ | ⟨a, _ | ⟨b, rest⟩⟩
  · rfl
  · exact absurd rfl h2
  · rfl

theorem processRow_nil (pc : ProcessingConfig) :
    processRow pc true ([] : List α) = .error .argminEmptyError := by
  simp [processRow, remove_dc_offset, normalize_waveform,
    align_to_zero_crossing, findCrossing, findCrossingAux, argminAbs?]

/-- C4 counterexample: the engine's build does not validate `frames`;
called with `frames = 0` (and `frame_size = 4`) it returns an (empty)
buffer instead of failing. -/
theorem c4_counterexample_frames_zero :
    generate (0:ℚ) 0 4 true ⟨fun th _ => th, none⟩ = .ok [] := by
  simp [generate, buildTable, remove_wavetable_dc_offset, tableSize,
    effectiveProcessing, defaultProcessing]

/-- C4 amended: the engine's `generate` does not itself validate its
inputs — with `frames = 0` it returns an empty buffer for every generator
— while the `frames > 0` / `frame_size > 0` validation lives in
`WavetableConfig.validate`, which fails for non-positive values. -/
theorem c4_validation_in_config (frames frame_size sample_rate bit_depth : Int)
    (name : String) (tau : ℚ) (g : Generator ℚ) (fs : Int)
    (h : frames ≤ 0 ∨ frame_size ≤ 0) (hfs : 0 ≤ fs) :
    (∃ e, WavetableConfig.validate frames frame_size sample_rate bit_depth
        name = .error e) ∧
    generate tau 0 fs true g = .ok [] := by
  constructor
  · unfold WavetableConfig.validate
    by_cases h1 : frames ≤ 0
    · exact ⟨_, by rw [if_pos h1]⟩
    · have h2 : frame_size ≤ 0 := by tauto
      exact ⟨_, by rw [if_neg h1, if_pos h2]⟩
  · unfold generate
    rw [if_neg (by omega)]
    simp [buildTable, remove_wavetable_dc_offset, tableSize]

/-- Witness for C4's amended statement at `frames = -3`. -/
theorem c4_validation_in_config_witness :
    (∃ e, WavetableConfig.validate (-3) 4 44100 16 "saw" = .error e) ∧
    generate (0:ℚ) 0 4 true ⟨fun th _ => th, none⟩ = .ok [] :=
  c4_validation_in_config (-3) 4 44100 16 "saw" 0 ⟨fun th _ => th, none⟩ 4
    (Or.inl (by norm_num)) (by norm_num)

/-- C5 counterexample: a generator returning the length-1 row `[5]` with
`frame_size = 4` does not fail — the row broadcasts (after per-frame
processing it has become `[0]`) and the build returns `[0, 0, 0, 0]`. -/
theorem c5_counterexample_length_one_broadcasts :
    generate (0:ℚ) 1 4 true ⟨fun _ _ => [5], none⟩ = .ok [0, 0, 0, 0] := by
  norm_num [generate, buildTable, genFrame, processRow, storeRow,
    remove_dc_offset, normalize_waveform, mean, peakAbs,
    align_to_zero_crossing, findCrossing, findCrossingAux, argminAbs?,
    argminAbsAux, rotateLeft, clamp_amplitude, remove_wavetable_dc_offset,
    tableSize, tableMean, tablePeak, EPSILON, effectiveProcessing,
    defaultProcessing, List.range_succ, List.replicate,
    show Int.toNat 4 = 4 from rfl]

/-- C5 amended: a generator row whose length is neither `frame_size` nor
`1` makes the build fail (numpy raises `ValueError`: broadcast mismatch,
or `argmin` of an empty sequence for length 0); a length-1 row instead
broadcasts silently. -/
theorem c5_wrong_length_fails (tau : ℚ) (frames frame_size : Int)
    (g : Generator ℚ) (L : Nat)
    (hf : 0 < frames) (hs : 0 < frame_size)
    (hg : ∀ th u, (g.generate th u).length = L)
    (hL1 : L ≠ frame_size.toNat) (hL2 : L ≠ 1) :
    ∃ e, generate tau frames frame_size true g = .error e := by
  unfold generate
  rw [if_neg (by omega)]
  dsimp only
  set pc := effectiveProcessing g with hpc
  set fsz := frame_size.toNat with hfsz
  have key2 : ∃ e, genFrame tau frames fsz g pc true 0 = .error e := by
    rcases Nat.eq_zero_or_pos L with hL0 | hLpos
    · have hrow : ∀ u : ℚ, g.generate (theta tau fsz) u = [] := fun u =>
        List.eq_nil_of_length_eq_zero (by rw [hg, hL0])
      unfold genFrame
      dsimp only
      rw [hrow, processRow_nil pc]
      exact ⟨_, rfl⟩
    · have hne : ∀ u : ℚ, g.generate (theta tau fsz) u ≠ [] := by
        intro u hnil
        have := hg (theta tau fsz) u
        rw [hnil] at this
        simp at this
        omega
      unfold genFrame
      dsimp only
      obtain ⟨r, hr, hrl⟩ := processRow_ok pc _ (hne _)
      rw [hr]
      exact ⟨_, storeRow_error fsz r (by rw [hrl, hg]; exact hL1)
        (by rw [hrl, hg]; exact hL2)⟩
  obtain ⟨n, hn⟩ : ∃ n, frames.toNat = n + 1 := ⟨frames.toNat - 1, by omega⟩
  rw [hn, List.range_succ_eq_map]
  rw [buildTable]
  obtain ⟨e, he⟩ := key2
  rw [he]
  exact ⟨e, rfl⟩

/-- Witness for C5's amended statement: a constant length-3 row with
`frame_size = 4` fails. -/
theorem c5_wrong_length_fails_witness :
    ∃ e, generate (0:ℚ) 1 4 true ⟨fun _ _ => [1, 2, 3], none⟩ = .error e :=
  c5_wrong_length_fails 0 1 4 ⟨fun _ _ => [1, 2, 3], none⟩ 3
    (by norm_num) (by norm_num) (fun th u => rfl) (by decide) (by decide)

theorem lastAssign?_cons {G : Type} (n : String) (p : String × G)
    (ps : List (String × G)) :
    lastAssign? n (p :: ps) =
      (lastAssign? n ps).or (if p.1 == n then some p.2 else none) := by
  unfold lastAssign?
  rw [List.reverse_cons, List.find?_append]
  cases hf : ps.reverse.find? (fun q => q.1 == n) with
  | none =>
      simp only [Option.none_or, Option.map_none, Option.none_or]
      cases hpn : (p.1 == n) with
      | true => simp [List.find?, hpn]
      | false => simp [List.find?, hpn]
  | some q => simp

/-- C6 counterexample: registering a second generator under an
already-present name does not fail and does not keep the first entry —
the registry afterwards maps the name to the second generator. -/
theorem c6_counterexample_silent_overwrite :
    registerAll [("example", 1), ("example", 2)] (emptyRegistry (G := Nat))
      "example" = some 2 ∧ (2 : Nat) ≠ 1 := by
  constructor
  · simp [registerAll, register_generator, emptyRegistry]
  · decide

/-- C6 amended: `register_generator` never fails; a duplicate name
silently overwrites, so after any sequence of registrations each name
maps to the last generator registered under it (falling back to the
prior registry contents). -/
theorem c6_last_registration_wins {G : Type} (ps : List (String × G))
    (reg : String → Option G) (n : String) :
    registerAll ps reg n =
      match lastAssign? n ps with
      | some g => some g
      | none => reg n := by
  induction ps generalizing reg with
  | nil => simp [registerAll, lastAssign?]
  | cons p ps ih =>
      show registerAll ps (register_generator p.1 p.2 reg) n = _
      rw [ih, lastAssign?_cons]
      cases hl : lastAssign? n ps with
      | some g' => simp
      | none =>
          simp only [Option.none_or]
          by_cases hpn : p.1 = n
          · simp [register_generator, hpn]
          · have hbeq : (p.1 == n) = false := by
              simpa using hpn
            have hne : ¬ (n = p.1) := fun hh => hpn hh.symm
            simp [register_generator, hbeq, hne]

theorem tableSize_eq_length_flatten (t : List (List α)) :
    t.flatten.length = tableSize t := by
  rw [List.length_flatten]
  rfl

theorem table3_bound (T2 : List (List ℚ)) :
    ∀ y ∈ (if 0 < tableSize T2 then
        (if tablePeak T2 > EPSILON ℚ then
          T2.map (fun r => r.map (fun x => x / tablePeak T2))
        else T2)
      else T2).flatten, -1 ≤ y ∧ y ≤ 1 := by
  split_ifs with h1 h2
  · intro y hy
    rw [List.mem_flatten] at hy
    obtain ⟨r', hr', hyr⟩ := hy
    rw [List.mem_map] at hr'
    obtain ⟨r, hr, rfl⟩ := hr'
    rw [List.mem_map] at hyr
    obtain ⟨x, hx, rfl⟩ := hyr
    have hgp : 0 < tablePeak T2 := lt_trans (by norm_num [EPSILON]) h2
    have hb : |x| ≤ tablePeak T2 :=
      le_trans (abs_le_peakAbs r x hx) (peakAbs_le_tablePeak T2 r hr)
    have : |x / tablePeak T2| ≤ 1 := by
      rw [abs_div, abs_of_pos hgp]
      exact (div_le_one hgp).mpr hb
    exact abs_le.mp this
  · intro y hy
    rw [List.mem_flatten] at hy
    obtain ⟨r, hr, hyr⟩ := hy
    have hb : |y| ≤ tablePeak T2 :=
      le_trans (abs_le_peakAbs r y hyr) (peakAbs_le_tablePeak T2 r hr)
    have : |y| ≤ 1 :=
      le_trans hb (le_trans (not_lt.mp h2) (by norm_num [EPSILON]))
    exact abs_le.mp this
  · intro y hy
    exfalso
    have hlen : T2.flatten.length = 0 := by
      rw [tableSize_eq_length_flatten]
      omega
    rw [List.eq_nil_of_length_eq_zero hlen] at hy
    exact List.not_mem_nil y hy

/-- C10 (implicit invariant): for every build whose effective processing
config has `wt_normalise` true (the default), every sample of the final
flattened output lies in `[-1, 1]` — global normalization divides by the
table's peak absolute value (or the table is already below `EPSILON`). -/
theorem c10_output_bounded (tau : ℚ) (frames frame_size : Int)
    (g : Generator ℚ) (out : List ℚ)
    (hwt : (effectiveProcessing g).wt_normalise = true)
    (hok : generate tau frames frame_size true g = .ok out) :
    ∀ y ∈ out, -1 ≤ y ∧ y ≤ 1 := by
  unfold generate at hok
  by_cases hneg : frames < 0 ∨ frame_size < 0
  · rw [if_pos hneg] at hok
    cases hok
  · rw [if_neg hneg] at hok
    dsimp only at hok
    cases hbt : buildTable tau frames frame_size.toNat g
        (effectiveProcessing g) true (List.range frames.toNat) with
    | error e => rw [hbt] at hok; cases hok
    | ok table =>
        rw [hbt] at hok
        injection hok with hout
        subst hout
        simp only [hwt, eq_self_iff_true, true_and]
        by_cases hdc : (effectiveProcessing g).wt_dc_remove = true
        · rw [if_pos hdc]
          exact table3_bound _
        · rw [if_neg hdc]
          exact table3_bound _

/-- Witness for C10 at a concrete build whose output is `[1, -1]`. -/
theorem c10_output_bounded_witness :
    generate (0:ℚ) 1 2 true ⟨fun _ _ => [1, -1], none⟩ = .ok [1, -1] ∧
    (-1 ≤ (1:ℚ) ∧ (1:ℚ) ≤ 1) :=
  have hok : generate (0:ℚ) 1 2 true ⟨fun _ _ => [1, -1], none⟩ =
      .ok [1, -1] := by
    norm_num [generate, buildTable, genFrame, processRow, storeRow,
      remove_dc_offset, normalize_waveform, mean, peakAbs,
      align_to_zero_crossing, findCrossing, findCrossingAux, argminAbs?,
      argminAbsAux, rotateLeft, clamp_amplitude, remove_wavetable_dc_offset,
      tableSize, tableMean, tablePeak, EPSILON, effectiveProcessing,
      defaultProcessing, List.range_succ, show Int.toNat 2 = 2 from rfl]
  ⟨hok, c10_output_bounded 0 1 2 ⟨fun _ _ => [1, -1], none⟩ [1, -1] rfl hok
    1 (by simp)⟩

theorem thetaF_length (tau : FV) (n : Nat) : (thetaF tau n).length = n := by
  unfold thetaF
  rw [List.length_map, List.length_range]

theorem fv_sub_nan (m : FV) : FV.sub FV.nan m = FV.nan := by
  cases m <;> rfl

theorem fv_fmax_nan_left (b : FV) : FV.fmax FV.nan b = FV.nan := by
  cases b <;> rfl

theorem fv_fmin_nan_left (b : FV) : FV.fmin FV.nan b = FV.nan := by
  cases b <;> rfl

theorem fv_foldl_fmax_nan_replicate :
    ∀ n : Nat, List.foldl FV.fmax FV.nan (List.replicate n FV.nan) = FV.nan
  | 0 => rfl
  | n + 1 => by
      rw [List.replicate_succ, List.foldl_cons]
      exact fv_foldl_fmax_nan_replicate n

theorem peakAbsF_replicate_nan (n : Nat) :
    peakAbsF (List.replicate (n + 1) FV.nan) = FV.nan := by
  unfold peakAbsF
  rw [List.map_replicate, List.replicate_succ, List.foldl_cons]
  exact fv_foldl_fmax_nan_replicate n

theorem remove_dcF_replicate_nan (n : Nat) :
    remove_dc_offsetF (List.replicate (n + 1) FV.nan) =
    List.replicate (n + 1) FV.nan := by
  unfold remove_dc_offsetF
  rw [if_neg (by simp), List.map_replicate, fv_sub_nan]

theorem normalizeF_replicate_nan (n : Nat) (t : FV) :
    normalize_waveformF (List.replicate (n + 1) FV.nan) t =
    List.replicate (n + 1) FV.nan := by
  unfold normalize_waveformF
  rw [if_neg (by simp)]
  dsimp only
  rw [peakAbsF_replicate_nan n, if_neg (by decide)]

theorem findCrossingAuxF_replicate_nan :
    ∀ (n i : Nat), findCrossingAuxF (List.replicate n FV.nan) i = none
  | 0, _ => rfl
  | 1, _ => rfl
  | n + 2, i => by
      rw [List.replicate_succ, List.replicate_succ]
      unfold findCrossingAuxF
      rw [if_neg (by decide)]
      have h := findCrossingAuxF_replicate_nan (n + 1) (i + 1)
      rw [List.replicate_succ] at h
      exact h

theorem argminAbsAuxF_replicate_nan :
    ∀ (n i best : Nat),
      argminAbsAuxF (List.replicate n FV.nan) i best FV.nan = best
  | 0, _, _ => rfl
  | n + 1, i, best => by
      rw [List.replicate_succ]
      unfold argminAbsAuxF
      rw [if_neg (by decide)]
      exact argminAbsAuxF_replicate_nan n (i + 1) best

theorem alignF_replicate_nan (n : Nat) :
    align_to_zero_crossingF (List.replicate (n + 1) FV.nan) =
    .ok (List.replicate (n + 1) FV.nan) := by
  unfold align_to_zero_crossingF
  rw [show findCrossingF (List.replicate (n + 1) FV.nan) = none from
    findCrossingAuxF_replicate_nan (n + 1) 0]
  rw [show argminAbsF? (List.replicate (n + 1) FV.nan) = some 0 from by
    rw [List.replicate_succ]
    show some (argminAbsAuxF (List.replicate n FV.nan) 1 0 (FV.fabs FV.nan)) =
      some 0
    rw [show FV.fabs FV.nan = FV.nan from rfl, argminAbsAuxF_replicate_nan n 1 0]]
  rfl

theorem clampF_replicate_nan (n : Nat) (lo hi : FV) :
    clamp_amplitudeF (List.replicate n FV.nan) lo hi =
    List.replicate n FV.nan := by
  unfold clamp_amplitudeF
  rw [List.map_replicate, fv_fmax_nan_left, fv_fmin_nan_left]

theorem processRowF_replicate_nan (n : Nat) :
    processRowF defaultProcessing true (List.replicate (n + 1) FV.nan) =
    .ok (List.replicate (n + 1) FV.nan) := by
  unfold processRowF
  rw [if_pos rfl]
  show (match align_to_zero_crossingF
      (normalize_waveformF (remove_dc_offsetF (List.replicate (n + 1) FV.nan))
        (FV.fin 1)) with
    | .error e => (.error e : Except BuildError (List FV))
    | .ok w3 => .ok (clamp_amplitudeF w3 (FV.fin (-1)) (FV.fin 1))) = _
  rw [remove_dcF_replicate_nan n, normalizeF_replicate_nan n,
    alignF_replicate_nan n]
  show Except.ok (clamp_amplitudeF (List.replicate (n + 1) FV.nan)
    (FV.fin (-1)) (FV.fin 1)) = _
  rw [clampF_replicate_nan]

theorem genFrameF_nan (tau : FV) (m i : Nat) :
    genFrameF tau 1 (m + 1) ⟨fun th _ => th.map (fun _ => FV.nan), none⟩
      defaultProcessing true i = .ok (List.replicate (m + 1) FV.nan) := by
  unfold genFrameF
  dsimp only
  rw [show (thetaF tau (m + 1)).map (fun _ => FV.nan) =
      List.replicate (m + 1) FV.nan from by
    rw [List.map_const', thetaF_length]]
  rw [processRowF_replicate_nan m]
  show storeRowF (m + 1) (List.replicate (m + 1) FV.nan) = _
  unfold storeRowF
  rw [if_pos (by simp)]

theorem wtdcF_replicate_nan (m : Nat) :
    remove_wavetable_dc_offsetF [List.replicate (m + 1) FV.nan] =
    [List.replicate (m + 1) FV.nan] := by
  unfold remove_wavetable_dc_offsetF
  rw [if_neg (by simp [tableSizeF])]
  simp only [List.map_cons, List.map_nil, List.map_replicate]
  rw [fv_sub_nan]

theorem tablePeakF_replicate_nan (m : Nat) :
    tablePeakF [List.replicate (m + 1) FV.nan] = FV.nan := by
  unfold tablePeakF
  simp only [List.map_cons, List.map_nil, List.foldl_cons, List.foldl_nil]
  rw [peakAbsF_replicate_nan m]
  rfl

/-- C7 counterexample: a generator returning NaN for every sample does
not make the build fail — the build returns a buffer consisting of NaN
(`frames = 1`, `frame_size = 4`). -/
theorem c7_counterexample_nan_emitted :
    generateF (FV.fin 0) 1 4 true
        ⟨fun th _ => th.map (fun _ => FV.nan), none⟩ =
      .ok [FV.nan, FV.nan, FV.nan, FV.nan] ∧
    FV.nan ∈ [FV.nan, FV.nan, FV.nan, FV.nan] := by
  constructor
  · decide
  · decide

/-- C7 amended: the build performs no finiteness check — no
`NonFiniteOutput` error exists in the code.  For every positive
`frame_size`, a generator returning NaN for every sample yields a
successful single-frame build whose entire output buffer is NaN (no
processing stage removes it: comparisons against NaN are false, so DC
removal propagates it, normalization and the clamp pass it through, and
global normalization is skipped because `NaN > EPSILON` is false). -/
theorem c7_nan_propagates (tau : FV) (fs : Nat) (hfs : 0 < fs) :
    generateF tau 1 (fs : Int) true
        ⟨fun th _ => th.map (fun _ => FV.nan), none⟩ =
      .ok (List.replicate fs FV.nan) := by
  obtain ⟨m, rfl⟩ : ∃ m, fs = m + 1 := ⟨fs - 1, by omega⟩
  unfold generateF
  rw [if_neg (by omega)]
  dsimp only
  rw [show effectiveProcessing
      (⟨fun th _ => th.map (fun _ => FV.nan), none⟩ : Generator FV) =
      defaultProcessing from rfl]
  rw [Int.toNat_natCast, show Int.toNat 1 = 1 from rfl,
    show List.range 1 = [0] from rfl]
  rw [show buildTableF tau 1 (m + 1)
      ⟨fun th _ => th.map (fun _ => FV.nan), none⟩ defaultProcessing true [0] =
      .ok [List.replicate (m + 1) FV.nan] from by
    unfold buildTableF
    rw [genFrameF_nan tau m 0]
    rfl]
  show Except.ok
      (if true = true ∧ defaultProcessing.wt_normalise = true ∧
          0 < tableSizeF (remove_wavetable_dc_offsetF
            [List.replicate (m + 1) FV.nan]) then
        if FV.blt EPSILON_F (tablePeakF (remove_wavetable_dc_offsetF
            [List.replicate (m + 1) FV.nan])) then
          (remove_wavetable_dc_offsetF [List.replicate (m + 1) FV.nan]).map
            (fun r => r.map (fun x => FV.div x (tablePeakF
              (remove_wavetable_dc_offsetF
                [List.replicate (m + 1) FV.nan]))))
        else remove_wavetable_dc_offsetF [List.replicate (m + 1) FV.nan]
      else remove_wavetable_dc_offsetF
        [List.replicate (m + 1) FV.nan]).flatten = _
  rw [wtdcF_replicate_nan m]
  rw [if_pos ⟨rfl, rfl, by simp [tableSizeF]⟩]
  rw [tablePeakF_replicate_nan m]
  rw [if_neg (by decide)]
  rw [List.flatten_cons, List.flatten_nil, List.append_nil]

/-- Witness for C7's amended statement at `frame_size = 3`. -/
theorem c7_nan_propagates_witness :
    generateF (FV.fin 5) 1 (3 : Int) true
        ⟨fun th _ => th.map (fun _ => FV.nan), none⟩ =
      .ok (List.replicate 3 FV.nan) :=
  c7_nan_propagates (FV.fin 5) 3 (by norm_num)

theorem build_of_sine_row (tau : α) (g : Generator α)
    (hg : ∀ u, g.generate (theta tau 4) u = [0, 1, 0, -1])
    (hpc : g.get_processing = none) :
    generate tau 1 4 true g = .ok [1, 0, -1, 0] := by
  norm_num [generate, buildTable, genFrame, processRow, storeRow,
    remove_dc_offset, normalize_waveform, mean, peakAbs,
    align_to_zero_crossing, findCrossing, findCrossingAux, argminAbs?,
    argminAbsAux, rotateLeft, clamp_amplitude, remove_wavetable_dc_offset,
    tableSize, tableMean, tablePeak, EPSILON, effectiveProcessing,
    defaultProcessing, List.range_succ, hg, hpc,
    show Int.toNat 4 = 4 from rfl]

theorem theta_two_pi :
    theta (2 * Real.pi) 4 = [0, Real.pi / 2, Real.pi, 3 * Real.pi / 2] := by
  unfold theta
  norm_num [List.range_succ]
  constructor
  · ring
  constructor
  · ring
  ring

theorem sine_row :
    (theta (2 * Real.pi) 4).map Real.sin = [0, 1, 0, -1] := by
  rw [theta_two_pi]
  simp only [List.map_cons, List.map_nil, Real.sin_zero, Real.sin_pi_div_two,
    Real.sin_pi]
  rw [show (3:ℝ) * Real.pi / 2 = Real.pi + Real.pi / 2 by ring, Real.sin_add]
  simp

/-- C1: for the spec §8 scenario — `frame_size = 4`, `frames = 1`, phase
array `[0, π/2, π, 3π/2]`, generator returning `sin(phase)` for every `u`,
all processing flags defaulted true — the engine's build produces the
flattened output `[1, 0, -1, 0]`: DC removal and normalization leave the
raw row `[0, 1, 0, -1]` unchanged, zero-crossing alignment rotates it
left by `1`, and the clamp and whole-table stages are no-ops. -/
theorem c1_sine_scenario :
    remove_dc_offset ([0, 1, 0, -1] : List ℝ) = [0, 1, 0, -1] ∧
    normalize_waveform ([0, 1, 0, -1] : List ℝ) 1 = [0, 1, 0, -1] ∧
    align_to_zero_crossing ([0, 1, 0, -1] : List ℝ) = .ok [1, 0, -1, 0] ∧
    clamp_amplitude ([1, 0, -1, 0] : List ℝ) (-1) 1 = [1, 0, -1, 0] ∧
    remove_wavetable_dc_offset ([[1, 0, -1, 0]] : List (List ℝ)) =
      [[1, 0, -1, 0]] ∧
    generate (2 * Real.pi) 1 4 true
      (⟨fun th _ => th.map Real.sin, none⟩ : Generator ℝ) =
      .ok [1, 0, -1, 0] := by
  refine ⟨?_, ?_, ?_, ?_, ?_, ?_⟩
  · norm_num [remove_dc_offset, mean]
  · norm_num [normalize_waveform, peakAbs, EPSILON]
  · norm_num [align_to_zero_crossing, findCrossing, findCrossingAux, rotateLeft]
  · norm_num [clamp_amplitude]
  · norm_num [remove_wavetable_dc_offset, tableSize, tableMean]
  · exact build_of_sine_row (2 * Real.pi) ⟨fun th _ => th.map Real.sin, none⟩
      (fun _ => sine_row) rfl

end Wavetable
